import Mathlib

/-!
Verification of the iris world model core: block-structured role masks
(`world_model.py`), training-label construction and loss pairing
(`WorldModel.compute_loss` / `compute_labels_world_model`), and the rollout
engine (`world_model_env.py`: `WorldModelEnv.step`, cache refresh and
`decode_obs_tokens`).  Components of the repository that are only declared
here (the KV cache, the slicer heads, the loss container) are modelled from
the specification and marked as such in their doc comments.
-/

namespace Iris

/-! ## Reward discretization
`WorldModel.compute_labels_world_model` produces reward class labels as
`(rewards * 2).long()`; `WorldModelEnv.step` decodes a sampled reward class
`c` of the 3-way reward head back to a value as `c / 2`. -/

/-- Truncation toward zero, the semantics of the tensor `.long()` cast. -/
def truncToInt (q : ℚ) : ℤ := if q < 0 then -⌊-q⌋ else ⌊q⌋

/-- Reward class label from `compute_labels_world_model`: `(rewards * 2).long()`. -/
def discretize_reward (r : ℚ) : ℤ := truncToInt (r * 2)

/-- Rollout reward decoding from `WorldModelEnv.step`: sampled class divided by 2. -/
def decode_reward_class (c : ℕ) : ℚ := (c : ℚ) / 2

/-! ## Block masks of `WorldModel.__init__`
The block has `tokens_per_block` positions; torch index `-1` is position
`n-1`, `-2` is `n-2`, `-3` is `n-3`.  The patterns are built exactly as in
the source: action at the last slot, task at the second-to-last slot,
observation mask `1 - act - task`, and the observation head mask is all
ones except positions `-2` and `-3`. -/

/-- `act_tokens_pattern`: zeros with a 1 at torch index `-1`. -/
def act_tokens_pattern (n i : ℕ) : ℤ := if i = n - 1 then 1 else 0

/-- `task_tokens_pattern`: zeros with a 1 at torch index `-2`. -/
def task_tokens_pattern (n i : ℕ) : ℤ := if i = n - 2 then 1 else 0

/-- `obs_tokens_pattern = 1 - act_tokens_pattern - task_tokens_pattern`. -/
def obs_tokens_pattern (n i : ℕ) : ℤ := 1 - act_tokens_pattern n i - task_tokens_pattern n i

/-- `all_but_last_obs_tokens_pattern`: ones with 0 at torch indices `-2` and `-3`. -/
def all_but_last_obs_tokens_pattern (n i : ℕ) : ℤ :=
  if i = n - 2 then 0 else if i = n - 3 then 0 else 1

/-! ## Masked heads
`slicer.Head` is not under `src/`; it is modelled from the spec. -/

/-- Modelled from the spec (the `slicer.Head` module is absent from the
source tree): a masked head precomputes, per block, the offsets at which its
block mask is 1, and produces one output per matching absolute position
`b * n + offset`, in increasing position order, compacted to the matching
positions only. -/
def head_block_offsets (mask : ℕ → ℕ → ℤ) (n : ℕ) : List ℕ :=
  (List.range n).filter (fun r => decide (mask n r = 1))

/-- Absolute positions (over `L` blocks of size `n`) at which a masked head
with the given block mask produces outputs, in order. -/
def head_positions (mask : ℕ → ℕ → ℤ) (n L : ℕ) : List ℕ :=
  (List.range L).flatMap (fun b => (head_block_offsets mask n).map (fun r => b * n + r))

/-! ## Training labels: `WorldModel.compute_labels_world_model`
One batch element (trajectory) is modelled as a list of `L` steps: per step
a row of `K` observation tokens, one rational reward, one integer
termination flag, and one padding-mask boolean (`true` = valid step,
matching `mask_padding`; `mask_fill = not mask_padding` selects the filled
positions). -/

/-- The ignore label used by the classification losses. -/
def IGNORE : ℤ := -100

/-- Precondition asserted by `compute_labels_world_model`:
`torch.all(ends.sum(dim=1) <= 1)`. -/
def ends_precondition (ends : List (List ℤ)) : Bool :=
  ends.all (fun row => decide (row.sum ≤ 1))

/-- `obs_tokens.masked_fill(mask_fill.unsqueeze(-1).expand_as(obs_tokens), -100)`:
every observation token of a padded step is replaced by the ignore label. -/
def masked_obs (obs_tokens : List (List ℤ)) (mask_padding : List Bool) : List (List ℤ) :=
  (obs_tokens.zip mask_padding).map (fun p => if p.2 then p.1 else p.1.map (fun _ => IGNORE))

/-- `labels_observations`: masked fill, flatten `b t k -> b (t k)`, then drop
the first label (`[:, 1:]`). -/
def labels_observations (obs_tokens : List (List ℤ)) (mask_padding : List Bool) : List ℤ :=
  ((masked_obs obs_tokens mask_padding).flatten).drop 1

/-- `labels_rewards = (rewards * 2).masked_fill(mask_fill, -100).long()`. -/
def labels_rewards (rewards : List ℚ) (mask_padding : List Bool) : List ℤ :=
  (rewards.zip mask_padding).map (fun p => if p.2 then discretize_reward p.1 else IGNORE)

/-- `labels_ends = ends.masked_fill(mask_fill, -100)`. -/
def labels_ends (ends : List ℤ) (mask_padding : List Bool) : List ℤ :=
  (ends.zip mask_padding).map (fun p => if p.2 then p.1 else IGNORE)

/-! ## Cross-entropy with ignore label
`F.cross_entropy` is external library code; its ignore-label behaviour is
modelled from the spec. -/

/-- Modelled from the spec (padding positions get an ignore label that
contributes no gradient): given any per-index loss value `f`, the
contribution of index `i` of a label vector to the classification loss is 0
when the label is the ignore label. -/
def ce_term (f : ℕ → ℚ) (labels : List ℤ) (i : ℕ) : ℚ :=
  if labels.getD i IGNORE = IGNORE then 0 else f i

/-- Modelled from the spec: total classification loss of one label vector,
summing the per-index contributions. -/
def ce_sum (f : ℕ → ℚ) (labels : List ℤ) : ℚ :=
  ((List.range labels.length).map (fun i => ce_term f labels i)).sum

/-- Modelled from the spec (`LossWithIntermediateLosses` lives in the absent
`utils` module): the loss container holds the three component losses and the
total loss is their sum. -/
structure LossWithIntermediateLosses where
  loss_obs : ℚ
  loss_rewards : ℚ
  loss_ends : ℚ

/-- Modelled from the spec: total loss = sum of the three components. -/
def LossWithIntermediateLosses.total (l : LossWithIntermediateLosses) : ℚ :=
  l.loss_obs + l.loss_rewards + l.loss_ends

/-! ## Rollout engine: `WorldModelEnv` (`world_model_env.py`)
The engine state after a successful reset consists of the filled size of the
incremental key/value cache, the capacity `max_tokens`, the stored
`obs_tokens` block (one batch element modelled), and the immutable
`num_observations_tokens` recorded at the first reset.  Fatal failures
(assertion errors, einops reshape errors, `torch.cat` of an empty list,
cache overflow) are modelled as `none`. -/

/-- Initialized `WorldModelEnv` rollout state. -/
structure EnvState where
  cache_size : ℕ
  max_tokens : ℕ
  obs_tokens : List ℤ
  num_obs : ℕ

/-- Result of one decoded observation: the reconstructed grid dimensions
`height × width`, the tokens that were embedded and reshaped, and the
trailing task-slot token returned alongside the image. -/
structure DecodeResult where
  height : ℕ
  width : ℕ
  grid : List ℤ
  token : ℤ
  deriving DecidableEq

/-- `WorldModelEnv.decode_obs_tokens`: drop the trailing token
(`obs_tokens[:, :-1]`), embed, and `rearrange 'b (h w) e -> b e h w'` with
`h = int(np.sqrt(num_observations_tokens))`; the einops reshape is fatal
unless `h` is positive and divides the number of remaining tokens; the
returned value pairs the decoded image with the trailing token
(`obs_tokens[:, -1]`). -/
def decode_obs_tokens (obs_tokens : List ℤ) (num : ℕ) : Option DecodeResult :=
  let q := obs_tokens.dropLast
  let h := Nat.sqrt num
  match obs_tokens.getLast? with
  | none => none
  | some t => if 0 < h ∧ h ∣ q.length then some ⟨h, q.length / h, q, t⟩ else none

/-- Sampling oracle: `sample_obs k` is the token drawn from pass `k`'s
observation-logit distribution, `sample_reward k` the class (in `[0,3)`)
drawn from pass `k`'s 3-way reward logits, `sample_end k` the class (in
`[0,2)`) drawn from pass `k`'s 2-way termination logits. -/
structure Oracle where
  sample_obs : ℕ → ℤ
  sample_reward : ℕ → ℕ
  sample_end : ℕ → ℕ

/-- Body of iteration `k` of the sampling loop of `WorldModelEnv.step`:
given the token fed to pass `k`, returns the token for the next pass and the
tokens appended to the new `obs_tokens` at this iteration.  At
`k = num - 1` the token is forced to the zero placeholder and appended
without sampling; for earlier `k` the observation sample of pass `k` is
used; for `k ≥ num` nothing is appended. -/
def step_pass (o : Oracle) (num k : ℕ) (token : ℤ) : ℤ × List ℤ :=
  if k < num then
    if k = num - 1 then (0, [0])
    else (o.sample_obs k, [o.sample_obs k])
  else (token, [])

/-- The sampling loop of `WorldModelEnv.step`, running passes
`k, k+1, ..., k+fuel-1`: returns the list of tokens fed to the forward
passes (one per pass) and the concatenation of the appended `obs_tokens`. -/
def run_passes (o : Oracle) (num k fuel : ℕ) (token : ℤ) : List ℤ × List ℤ :=
  match fuel with
  | 0 => ([], [])
  | Nat.succ fuel =>
    let sp := step_pass o num k token
    let rest := run_passes o num (k + 1) fuel sp.1
    (token :: rest.1, sp.2 ++ rest.2)

/-- `WorldModelEnv.refresh_keys_values_with_initial_obs_tokens`, applied to
the stored `obs_tokens`: asserts the block length equals the recorded
`num_observations_tokens`, allocates an empty cache of capacity
`max_tokens`, and runs one forward pass over the whole block, filling one
cache position per token; the resulting cache size is the block length.
The cache itself (`kv_caching.KeysValues`, absent from the source tree) is
modelled from the spec as a bounded store whose filled size may never
exceed `max_tokens`, extension beyond capacity being a fatal invariant
violation. -/
def refresh_cache_size (s : EnvState) : Option ℕ :=
  if s.obs_tokens.length = s.num_obs ∧ s.obs_tokens.length ≤ s.max_tokens then
    some s.obs_tokens.length
  else none

/-- Cache size right before the sampling loop of `WorldModelEnv.step`: if
appending `np` more positions would exceed `max_tokens`, the cache is
rebuilt from the stored `obs_tokens` block; otherwise it is left as is. -/
def cache_size_before_passes (s : EnvState) (np : ℕ) : Option ℕ :=
  if s.max_tokens < s.cache_size + np then refresh_cache_size s else some s.cache_size

/-- `WorldModelEnv.step`: number of forward passes, optional cache rebuild,
the sampling loop (reward and termination drawn from pass 0, each pass
advancing the cache by one position, overflow fatal), replacement of the
stored `obs_tokens` by the newly produced tokens, and optional decoding of
the next observation.  Returns the new state, the decoded observation (or
`none` when not requested), the reward value and the done flag. -/
def step (s : EnvState) (o : Oracle) (action : ℤ) (should_predict_next_obs : Bool) :
    Option (EnvState × Option DecodeResult × ℚ × Bool) :=
  let np := if should_predict_next_obs then 1 + s.num_obs else 1
  match cache_size_before_passes s np with
  | none => none
  | some c1 =>
    if c1 + np ≤ s.max_tokens then
      let res := run_passes o s.num_obs 0 np action
      if res.2 = [] then none
      else
        let reward := decode_reward_class (o.sample_reward 0)
        let done := decide (o.sample_end 0 ≠ 0)
        let s2 : EnvState :=
          { s with cache_size := c1 + np, obs_tokens := res.2 }
        if should_predict_next_obs then
          match decode_obs_tokens res.2 s.num_obs with
          | none => none
          | some d => some (s2, some d, reward, done)
        else some (s2, none, reward, done)
    else none

/-! ## Helper lemmas -/

lemma sum_eq_count_one (row : List ℤ) (h : ∀ x ∈ row, x = 0 ∨ x = 1) :
    row.sum = (row.count 1 : ℤ) := by
  induction row with
  | nil => simp
  | cons a t ih =>
    have ha := h a (by simp)
    have ht : ∀ x ∈ t, x = 0 ∨ x = 1 := fun x hx => h x (by simp [hx])
    rcases ha with rfl | rfl <;>
      · rw [List.sum_cons, List.count_cons, ih ht]
        simp only [beq_iff_eq]
        push_cast
        ring_nf

/-! ## C1: reward discretization round trip -/

/-- C1 (counterexample): the claim states that for every reward in
`{-1, 0, 1}` the class index `round(2r)` is a valid index of the 3-way
reward head and that decoding `class / 2` recovers `r`.  At `r = -1` the
produced label is `-2`, which is not a valid class index of a 3-way head,
and no class of the 3-way head decodes to `-1`. -/
theorem reward_round_trip_fails_at_neg_one :
    discretize_reward (-1) = -2 ∧
    ¬ (0 ≤ discretize_reward (-1) ∧ discretize_reward (-1) < 3) ∧
    decode_reward_class 0 ≠ -1 ∧ decode_reward_class 1 ≠ -1 ∧ decode_reward_class 2 ≠ -1 := by
  refine ⟨?_, ?_, ?_, ?_, ?_⟩ <;> norm_num [discretize_reward, truncToInt, decode_reward_class]

/-- C1 (amended): for rewards `r` with `2 r ∈ {0, 1, 2}` — that is,
`r ∈ {0, 1/2, 1}` — the training discretization `r ↦ (2 r).long()` produces
a valid class index of the 3-way reward head and the rollout decoding
(class divided by 2) recovers `r` exactly. -/
theorem reward_round_trip (r : ℚ) (h : r = 0 ∨ r = 1/2 ∨ r = 1) :
    0 ≤ discretize_reward r ∧ discretize_reward r < 3 ∧
    decode_reward_class (discretize_reward r).toNat = r := by
  have e0 : discretize_reward 0 = 0 := by norm_num [discretize_reward, truncToInt]
  have e1 : discretize_reward (1/2) = 1 := by norm_num [discretize_reward, truncToInt]
  have e2 : discretize_reward 1 = 2 := by norm_num [discretize_reward, truncToInt]
  rcases h with rfl | rfl | rfl
  · rw [e0, show ((0 : ℤ).toNat) = 0 from rfl]
    norm_num [decode_reward_class]
  · rw [e1, show ((1 : ℤ).toNat) = 1 from rfl]
    norm_num [decode_reward_class]
  · rw [e2, show ((2 : ℤ).toNat) = 2 from rfl]
    norm_num [decode_reward_class]

/-- Witness for `reward_round_trip` at `r = 1/2`. -/
theorem reward_round_trip_witness :
    ((1/2 : ℚ) = 0 ∨ (1/2 : ℚ) = 1/2 ∨ (1/2 : ℚ) = 1) ∧
    (0 ≤ discretize_reward (1/2) ∧ discretize_reward (1/2) < 3 ∧
      decode_reward_class (discretize_reward (1/2)).toNat = 1/2) :=
  ⟨Or.inr (Or.inl rfl), reward_round_trip (1/2) (Or.inr (Or.inl rfl))⟩

/-! ## C6: the three role masks partition the block -/

/-- C6: for every constructed `WorldModel` (so `2 ≤ tokens_per_block`), at
each block position exactly one of the action, task and observation masks is
1: they sum to one pointwise, each is 0/1-valued, the action mask is 1
exactly at the last position, the task mask exactly at the second-to-last
position, the observation mask exactly everywhere else, and the three are
pairwise disjoint. -/
theorem role_masks_partition (n i : ℕ) (hn : 2 ≤ n) (hi : i < n) :
    act_tokens_pattern n i + task_tokens_pattern n i + obs_tokens_pattern n i = 1 ∧
    (act_tokens_pattern n i = 0 ∨ act_tokens_pattern n i = 1) ∧
    (task_tokens_pattern n i = 0 ∨ task_tokens_pattern n i = 1) ∧
    (obs_tokens_pattern n i = 0 ∨ obs_tokens_pattern n i = 1) ∧
    (act_tokens_pattern n i = 1 ↔ i = n - 1) ∧
    (task_tokens_pattern n i = 1 ↔ i = n - 2) ∧
    (obs_tokens_pattern n i = 1 ↔ i ≠ n - 1 ∧ i ≠ n - 2) ∧
    ¬ (act_tokens_pattern n i = 1 ∧ task_tokens_pattern n i = 1) ∧
    ¬ (act_tokens_pattern n i = 1 ∧ obs_tokens_pattern n i = 1) ∧
    ¬ (task_tokens_pattern n i = 1 ∧ obs_tokens_pattern n i = 1) := by
  have hne : n - 1 ≠ n - 2 := by omega
  have hne2 : n - 2 ≠ n - 1 := Ne.symm hne
  simp only [act_tokens_pattern, task_tokens_pattern, obs_tokens_pattern]
  by_cases h1 : i = n - 1 <;> by_cases h2 : i = n - 2
  · omega
  all_goals simp [h1, h2, hne, hne2]

/-- Witness for `role_masks_partition` at `n = 18`, `i = 5`. -/
theorem role_masks_partition_witness :
    2 ≤ 18 ∧ 5 < 18 ∧
    (act_tokens_pattern 18 5 + task_tokens_pattern 18 5 + obs_tokens_pattern 18 5 = 1 ∧
    (act_tokens_pattern 18 5 = 0 ∨ act_tokens_pattern 18 5 = 1) ∧
    (task_tokens_pattern 18 5 = 0 ∨ task_tokens_pattern 18 5 = 1) ∧
    (obs_tokens_pattern 18 5 = 0 ∨ obs_tokens_pattern 18 5 = 1) ∧
    (act_tokens_pattern 18 5 = 1 ↔ 5 = 18 - 1) ∧
    (task_tokens_pattern 18 5 = 1 ↔ 5 = 18 - 2) ∧
    (obs_tokens_pattern 18 5 = 1 ↔ 5 ≠ 18 - 1 ∧ 5 ≠ 18 - 2) ∧
    ¬ (act_tokens_pattern 18 5 = 1 ∧ task_tokens_pattern 18 5 = 1) ∧
    ¬ (act_tokens_pattern 18 5 = 1 ∧ obs_tokens_pattern 18 5 = 1) ∧
    ¬ (task_tokens_pattern 18 5 = 1 ∧ obs_tokens_pattern 18 5 = 1)) :=
  ⟨by norm_num, by norm_num, role_masks_partition 18 5 (by norm_num) (by norm_num)⟩

/-! ## C7: at most one termination event per trajectory -/

/-- C7: the precondition asserted by `compute_labels_world_model` fails
exactly when some trajectory of the batch has two or more termination
events, and passes exactly when every trajectory has at most one. -/
theorem at_most_one_termination (ends : List (List ℤ))
    (h01 : ∀ row ∈ ends, ∀ x ∈ row, x = 0 ∨ x = 1) :
    (ends_precondition ends = false ↔ ∃ row ∈ ends, 2 ≤ row.count 1) ∧
    (ends_precondition ends = true ↔ ∀ row ∈ ends, row.count 1 ≤ 1) := by
  have key : ∀ row ∈ ends, ((decide (row.sum ≤ 1) : Bool) = true ↔ row.count 1 ≤ 1) := by
    intro row hrow
    rw [decide_eq_true_iff, sum_eq_count_one row (h01 row hrow)]
    exact_mod_cast Iff.rfl
  have htrue : ends_precondition ends = true ↔ ∀ row ∈ ends, row.count 1 ≤ 1 := by
    unfold ends_precondition
    rw [List.all_eq_true]
    exact ⟨fun h row hr => (key row hr).1 (h row hr), fun h row hr => (key row hr).2 (h row hr)⟩
  refine ⟨?_, htrue⟩
  rw [Bool.eq_false_iff, Ne, htrue]
  push_neg
  exact ⟨fun ⟨row, hr, hc⟩ => ⟨row, hr, by omega⟩, fun ⟨row, hr, hc⟩ => ⟨row, hr, by omega⟩⟩

/-- Witness for `at_most_one_termination` on a batch with a double
termination. -/
theorem at_most_one_termination_witness :
    (∀ row ∈ [[(1 : ℤ), 0, 1]], ∀ x ∈ row, x = 0 ∨ x = 1) ∧
    ((ends_precondition [[(1 : ℤ), 0, 1]] = false ↔
        ∃ row ∈ [[(1 : ℤ), 0, 1]], 2 ≤ row.count 1) ∧
      (ends_precondition [[(1 : ℤ), 0, 1]] = true ↔
        ∀ row ∈ [[(1 : ℤ), 0, 1]], row.count 1 ≤ 1)) :=
  ⟨by decide, at_most_one_termination [[(1 : ℤ), 0, 1]] (by decide)⟩

/-! ## The sampling loop of `WorldModelEnv.step` -/

/-- Closed form of the sampling loop: starting at pass `k ≤ num` with
`k + fuel = num + 1`, the fed tokens are the start token followed by the
observation samples of passes `k, ..., num-2` and the zero placeholder, and
the collected tokens are those same samples followed by the placeholder. -/
lemma run_passes_eq (o : Oracle) (num : ℕ) (hnum : 1 ≤ num) :
    ∀ fuel k token, k ≤ num → k + fuel = num + 1 →
      run_passes o num k fuel token =
        (token :: ((List.range' k (num - 1 - k)).map o.sample_obs ++
            if k ≤ num - 1 then [0] else []),
         if k ≤ num - 1 then (List.range' k (num - 1 - k)).map o.sample_obs ++ [0] else []) := by
  intro fuel
  induction fuel with
  | zero => intro k token hk hfuel; omega
  | succ fuel ih =>
    intro k token hk hfuel
    by_cases hk1 : k = num
    · have hf0 : fuel = 0 := by omega
      subst hf0
      have hlt : ¬ k < num := by omega
      have hle : ¬ k ≤ num - 1 := by omega
      have h0 : num - 1 - k = 0 := by omega
      simp [run_passes, step_pass, hlt, hle, h0]
    · have hklt : k < num := by omega
      by_cases hk2 : k = num - 1
      · have hf1 : fuel = 1 := by omega
        subst hf1
        subst hk2
        have h6 : num - 1 < num := by omega
        have h2 : ¬ (num - 1 + 1 < num) := by omega
        have h4 : num - 1 - (num - 1) = 0 := by omega
        simp [run_passes, step_pass, h6, h2, h4]
      · have hlt2 : k < num - 1 := by omega
        have hrec := ih (k + 1) (o.sample_obs k) (by omega) (by omega)
        have hle1 : k + 1 ≤ num - 1 := by omega
        have hle0 : k ≤ num - 1 := by omega
        rw [show num - 1 - k = (num - 1 - (k + 1)) + 1 by omega, List.range'_succ]
        simp only [run_passes, step_pass, if_pos hklt, if_neg hk2, hrec, if_pos hle1,
          if_pos hle0, List.map_cons, List.cons_append, List.singleton_append,
          List.nil_append]

/-! ## C2: cache capacity invariant and overflow rebuild -/

/-- C2: for a `step` call on an initialized engine whose stored block has
the recorded length and fits in the cache, (i) whenever the current cache
size plus the number of forward passes of this step would exceed
`max_tokens`, the cache is rebuilt from the stored `obs_tokens` block
before any pass runs and its size is then exactly the block length `K+1`;
(ii) otherwise the cache is not rebuilt; (iii) after the rebuild the step's
passes fit, so the filled size stays at most `max_tokens`; (iv) whenever a
step completes, the resulting cache size is at most `max_tokens`. -/
theorem cache_overflow_rebuild (s : EnvState) (o : Oracle) (a : ℤ)
    (hblock : s.obs_tokens.length = s.num_obs)
    (hfit : s.num_obs ≤ s.max_tokens) :
    (s.max_tokens < s.cache_size + (1 + s.num_obs) →
      cache_size_before_passes s (1 + s.num_obs) = some s.obs_tokens.length) ∧
    (s.cache_size + (1 + s.num_obs) ≤ s.max_tokens →
      cache_size_before_passes s (1 + s.num_obs) = some s.cache_size) ∧
    (s.num_obs + (1 + s.num_obs) ≤ s.max_tokens → s.cache_size ≤ s.max_tokens →
      ∀ c1, cache_size_before_passes s (1 + s.num_obs) = some c1 →
        c1 + (1 + s.num_obs) ≤ s.max_tokens) ∧
    (∀ b r, step s o a b = some r → r.1.cache_size ≤ s.max_tokens) := by
  refine ⟨?_, ?_, ?_, ?_⟩
  · intro hover
    unfold cache_size_before_passes refresh_cache_size
    rw [if_pos hover, if_pos ⟨hblock, hblock ▸ hfit⟩]
  · intro hfits
    unfold cache_size_before_passes
    rw [if_neg (by omega)]
  · intro hroom hsize c1 hc1
    unfold cache_size_before_passes refresh_cache_size at hc1
    by_cases hover : s.max_tokens < s.cache_size + (1 + s.num_obs)
    · rw [if_pos hover, if_pos ⟨hblock, hblock ▸ hfit⟩] at hc1
      cases hc1
      omega
    · rw [if_neg hover] at hc1
      cases hc1
      omega
  · intro b r hstep
    simp only [step] at hstep
    split at hstep
    · simp at hstep
    · rename_i c1 hcs
      split at hstep
      · rename_i hb
        split at hstep
        · rename_i hle
          split at hstep
          · simp at hstep
          · split at hstep
            · simp at hstep
            · injection hstep with h2
              subst h2
              exact hle
        · simp at hstep
      · split at hstep
        · rename_i hle1
          split at hstep
          · simp at hstep
          · injection hstep with h2
            subst h2
            exact hle1
        · simp at hstep

/-- Witness for `cache_overflow_rebuild`: a full cache of capacity 11 with a
stored block of length 5 forces a rebuild. -/
theorem cache_overflow_rebuild_witness :
    ([(5 : ℤ), 6, 7, 8, 9].length = 5 ∧ 5 ≤ 11) ∧
    ((11 < 11 + (1 + 5) →
      cache_size_before_passes ⟨11, 11, [5, 6, 7, 8, 9], 5⟩ (1 + 5) =
        some [(5 : ℤ), 6, 7, 8, 9].length) ∧
    (11 + (1 + 5) ≤ 11 →
      cache_size_before_passes ⟨11, 11, [5, 6, 7, 8, 9], 5⟩ (1 + 5) = some 11) ∧
    (5 + (1 + 5) ≤ 11 → 11 ≤ 11 →
      ∀ c1, cache_size_before_passes ⟨11, 11, [5, 6, 7, 8, 9], 5⟩ (1 + 5) = some c1 →
        c1 + (1 + 5) ≤ 11) ∧
    (∀ b r, step ⟨11, 11, [5, 6, 7, 8, 9], 5⟩ ⟨fun _ => 7, fun _ => 2, fun _ => 1⟩ 3 b =
        some r → r.1.cache_size ≤ 11)) :=
  ⟨⟨by decide, by decide⟩,
    cache_overflow_rebuild ⟨11, 11, [5, 6, 7, 8, 9], 5⟩
      ⟨fun _ => 7, fun _ => 2, fun _ => 1⟩ 3 (by decide) (by decide)⟩

/-- Characterization of a successful `step` call: the cache went through
`cache_size_before_passes` and advanced by one position per forward pass,
the stored `obs_tokens` was replaced by the tokens collected by the
sampling loop, reward and done were decoded from the pass-0 samples, and
the returned observation is decoded exactly when requested. -/
lemma step_some (s : EnvState) (o : Oracle) (a : ℤ) (b : Bool)
    (st : EnvState) (ob : Option DecodeResult) (r : ℚ) (d : Bool)
    (hstep : step s o a b = some (st, ob, r, d)) :
    ∃ c1, cache_size_before_passes s (if b then 1 + s.num_obs else 1) = some c1 ∧
      c1 + (if b then 1 + s.num_obs else 1) ≤ s.max_tokens ∧
      st = { s with cache_size := c1 + (if b then 1 + s.num_obs else 1),
                    obs_tokens := (run_passes o s.num_obs 0 (if b then 1 + s.num_obs else 1) a).2 } ∧
      r = decode_reward_class (o.sample_reward 0) ∧
      d = decide (o.sample_end 0 ≠ 0) ∧
      (b = true → ∃ dres, decode_obs_tokens st.obs_tokens s.num_obs = some dres ∧ ob = some dres) ∧
      (b = false → ob = none) := by
  cases b
  · simp only [step, Bool.false_eq_true, if_false] at hstep
    simp only [Bool.false_eq_true, if_false]
    split at hstep
    · simp at hstep
    · rename_i c1 hcs
      split at hstep
      · rename_i hle
        split at hstep
        · simp at hstep
        · simp only [Option.some.injEq, Prod.mk.injEq] at hstep
          obtain ⟨h1, h2, h3, h4⟩ := hstep
          subst h1
          refine ⟨c1, hcs, hle, rfl, h3.symm, h4.symm, ?_, ?_⟩
          · intro hcon; exact absurd hcon (by simp)
          · intro _; exact h2.symm
      · simp at hstep
  · simp only [step, if_true] at hstep
    simp only [if_true]
    split at hstep
    · simp at hstep
    · rename_i c1 hcs
      split at hstep
      · rename_i hle
        split at hstep
        · simp at hstep
        · split at hstep
          · simp at hstep
          · rename_i dres hdec
            simp only [Option.some.injEq, Prod.mk.injEq] at hstep
            obtain ⟨h1, h2, h3, h4⟩ := hstep
            subst h1
            refine ⟨c1, hcs, hle, rfl, h3.symm, h4.symm, ?_, ?_⟩
            · intro _; exact ⟨dres, hdec, h2.symm⟩
            · intro hcon; exact absurd hcon (by simp)
      · simp at hstep

/-! ## C4: multi-pass step structure -/

/-- C4: a `step(action)` call with next-observation prediction requested
runs exactly `1 + num_observations_tokens` forward passes, one new token fed
per pass (the action first); the reward and done samples come from pass 0
only; the token of the final pass is the forced zero placeholder, never a
sample; and the new stored `obs_tokens` consists of exactly
`num_observations_tokens` produced tokens — the pass-wise samples followed
by the placeholder — excluding the supplied action token, each pass
advancing the cache by one position. -/
theorem multipass_step_structure (s : EnvState) (o : Oracle) (a : ℤ)
    (hnum : 1 ≤ s.num_obs) :
    (run_passes o s.num_obs 0 (1 + s.num_obs) a).1.length = 1 + s.num_obs ∧
    (run_passes o s.num_obs 0 (1 + s.num_obs) a).1 =
      a :: ((List.range (s.num_obs - 1)).map o.sample_obs ++ [0]) ∧
    (run_passes o s.num_obs 0 (1 + s.num_obs) a).2 =
      (List.range (s.num_obs - 1)).map o.sample_obs ++ [0] ∧
    (∀ st ob r d, step s o a true = some (st, ob, r, d) →
      st.obs_tokens = (List.range (s.num_obs - 1)).map o.sample_obs ++ [0] ∧
      st.obs_tokens.length = s.num_obs ∧
      st.obs_tokens.getLast? = some 0 ∧
      (∀ c1, cache_size_before_passes s (1 + s.num_obs) = some c1 →
        st.cache_size = c1 + (1 + s.num_obs)) ∧
      r = decode_reward_class (o.sample_reward 0) ∧
      d = decide (o.sample_end 0 ≠ 0)) := by
  have hrun := run_passes_eq o s.num_obs hnum (1 + s.num_obs) 0 a (by omega) (by omega)
  rw [if_pos (Nat.zero_le _), if_pos (Nat.zero_le _)] at hrun
  simp only [Nat.sub_zero, ← List.range_eq_range'] at hrun
  have hfed : (run_passes o s.num_obs 0 (1 + s.num_obs) a).1 =
      a :: ((List.range (s.num_obs - 1)).map o.sample_obs ++ [0]) := by
    rw [hrun]
  have hcol : (run_passes o s.num_obs 0 (1 + s.num_obs) a).2 =
      (List.range (s.num_obs - 1)).map o.sample_obs ++ [0] := by
    rw [hrun]
  have hlen : ((List.range (s.num_obs - 1)).map o.sample_obs ++ [0]).length = s.num_obs := by
    simp
    omega
  refine ⟨?_, hfed, hcol, ?_⟩
  · rw [hfed]
    simp
    omega
  · intro st ob r d hstep
    obtain ⟨c1, hcs, hle, hst, hr, hd, _, _⟩ := step_some s o a true st ob r d hstep
    rw [if_pos rfl] at hcs hle hst
    have hobs : st.obs_tokens = (List.range (s.num_obs - 1)).map o.sample_obs ++ [0] := by
      rw [hst]
      exact hcol
    refine ⟨hobs, by rw [hobs]; exact hlen, ?_, ?_, hr, hd⟩
    · rw [hobs]
      exact List.getLast?_concat _
    · intro c1' hc1'
      rw [hcs] at hc1'
      cases hc1'
      rw [hst]

/-- Witness for `multipass_step_structure` with five observation tokens. -/
theorem multipass_step_structure_witness :
    1 ≤ (5 : ℕ) ∧
    ((run_passes ⟨fun k => 10 + k, fun _ => 2, fun _ => 0⟩ 5 0 (1 + 5) 3).1.length = 1 + 5 ∧
    (run_passes ⟨fun k => 10 + k, fun _ => 2, fun _ => 0⟩ 5 0 (1 + 5) 3).1 =
      3 :: ((List.range (5 - 1)).map (fun k => 10 + (k : ℤ)) ++ [0]) ∧
    (run_passes ⟨fun k => 10 + k, fun _ => 2, fun _ => 0⟩ 5 0 (1 + 5) 3).2 =
      (List.range (5 - 1)).map (fun k => 10 + (k : ℤ)) ++ [0] ∧
    (∀ st ob r d,
      step ⟨6, 20, [1, 2, 3, 4, 9], 5⟩ ⟨fun k => 10 + k, fun _ => 2, fun _ => 0⟩ 3 true =
        some (st, ob, r, d) →
      st.obs_tokens = (List.range (5 - 1)).map (fun k => 10 + (k : ℤ)) ++ [0] ∧
      st.obs_tokens.length = 5 ∧
      st.obs_tokens.getLast? = some 0 ∧
      (∀ c1, cache_size_before_passes ⟨6, 20, [1, 2, 3, 4, 9], 5⟩ (1 + 5) = some c1 →
        st.cache_size = c1 + (1 + 5)) ∧
      r = decode_reward_class 2 ∧
      d = decide ((0 : ℕ) ≠ 0))) :=
  ⟨by norm_num,
    multipass_step_structure ⟨6, 20, [1, 2, 3, 4, 9], 5⟩
      ⟨fun k => 10 + k, fun _ => 2, fun _ => 0⟩ 3 (by norm_num)⟩

/-! ## C9: step without next-observation prediction -/

/-- C9: a `step(action, should_predict_next_obs := false)` call on an
initialized engine runs exactly one forward pass (only the action token is
fed) and returns no observation, yet the stored `obs_tokens` is replaced by
a single token — the observation sample of that one pass, or the zero
placeholder when `num_observations_tokens` is 1 — so the stored block then
has length 1, not the `num_observations_tokens` length that
`decode_obs_tokens` and the cache rebuild assume. -/
theorem no_predict_single_pass (s : EnvState) (o : Oracle) (a : ℤ)
    (hnum : 1 ≤ s.num_obs) :
    (run_passes o s.num_obs 0 1 a).1 = [a] ∧
    (∀ st ob r d, step s o a false = some (st, ob, r, d) →
      ob = none ∧
      st.obs_tokens = [if s.num_obs = 1 then 0 else o.sample_obs 0] ∧
      st.obs_tokens.length = 1 ∧
      (2 ≤ s.num_obs → st.obs_tokens.length ≠ s.num_obs) ∧
      (∀ c1, cache_size_before_passes s 1 = some c1 → st.cache_size = c1 + 1)) := by
  have hres2 : (run_passes o s.num_obs 0 1 a).2 =
      [if s.num_obs = 1 then 0 else o.sample_obs 0] := by
    by_cases h1 : s.num_obs = 1
    · simp [run_passes, step_pass, h1]
    · have h2 : (0 : ℕ) ≠ s.num_obs - 1 := by omega
      have h3 : 0 < s.num_obs := hnum
      simp [run_passes, step_pass, h2, h3, h1]
  refine ⟨by simp [run_passes], ?_⟩
  intro st ob r d hstep
  obtain ⟨c1, hcs, hle, hst, hr, hd, _, hob⟩ := step_some s o a false st ob r d hstep
  rw [if_neg (by simp)] at hcs hle hst
  have hobs : st.obs_tokens = [if s.num_obs = 1 then 0 else o.sample_obs 0] := by
    rw [hst]
    exact hres2
  refine ⟨hob rfl, hobs, by rw [hobs]; rfl, ?_, ?_⟩
  · intro h2
    rw [hobs]
    simp
    omega
  · intro c1' hc1'
    rw [hcs] at hc1'
    cases hc1'
    rw [hst]

/-- Witness for `no_predict_single_pass` with five observation tokens. -/
theorem no_predict_single_pass_witness :
    1 ≤ (5 : ℕ) ∧
    ((run_passes ⟨fun k => 10 + k, fun _ => 2, fun _ => 0⟩ 5 0 1 3).1 = [3] ∧
    (∀ st ob r d,
      step ⟨6, 20, [1, 2, 3, 4, 9], 5⟩ ⟨fun k => 10 + k, fun _ => 2, fun _ => 0⟩ 3 false =
        some (st, ob, r, d) →
      ob = none ∧
      st.obs_tokens = [if (5 : ℕ) = 1 then 0 else 10 + ((0 : ℕ) : ℤ)] ∧
      st.obs_tokens.length = 1 ∧
      (2 ≤ (5 : ℕ) → st.obs_tokens.length ≠ 5) ∧
      (∀ c1, cache_size_before_passes ⟨6, 20, [1, 2, 3, 4, 9], 5⟩ 1 = some c1 →
        st.cache_size = c1 + 1))) :=
  ⟨by norm_num,
    no_predict_single_pass ⟨6, 20, [1, 2, 3, 4, 9], 5⟩
      ⟨fun k => 10 + k, fun _ => 2, fun _ => 0⟩ 3 (by norm_num)⟩

/-! ## C3: `decode_obs_tokens` -/

lemma sqrt_seventeen : Nat.sqrt 17 = 4 := by norm_num

/-- C3 (counterexample): the claim states that `decode_obs_tokens` reshapes
into a grid of side `√num_observations_tokens` and fails fatally whenever
`num_observations_tokens` is not a perfect square.  In the intended
configuration `num_observations_tokens = 17` (16 codec tokens plus the task
slot), 17 is not a perfect square, yet decoding succeeds — producing a 4×4
grid of the 16 leading tokens (the side is `⌊√17⌋ = 4`, and 16, not 17,
tokens are reshaped). -/
theorem decode_obs_tokens_no_fail_at_17 :
    (∀ m : ℕ, m * m ≠ 17) ∧
    decode_obs_tokens ((List.range 17).map (fun i => (i : ℤ))) 17 =
      some ⟨4, 4, (List.range 16).map (fun i => (i : ℤ)), 16⟩ := by
  constructor
  · intro m hm
    have h5 : m < 5 := by nlinarith
    interval_cases m <;> omega
  · simp only [decode_obs_tokens, sqrt_seventeen]
    decide

/-- C3 (amended): `decode_obs_tokens` is deterministic; it drops the
trailing task-slot token from the stored block, takes the embeddings of the
remaining `num - 1` tokens and reshapes them into a grid with
`⌊√num⌋` rows (fatal exactly when that row count is zero or does not divide
`num - 1`); in the intended configuration where the block length is
`num = m² + 1`, the grid is exactly square of side `m`, and the result
pairs the decoded grid with the trailing task-slot token. -/
theorem decode_obs_tokens_spec (obs_tokens : List ℤ) (m : ℕ) (hm : 1 ≤ m)
    (hlen : obs_tokens.length = m * m + 1) :
    ∃ t, obs_tokens.getLast? = some t ∧
      decode_obs_tokens obs_tokens (m * m + 1) =
        some ⟨m, m, obs_tokens.dropLast, t⟩ := by
  have hne : obs_tokens ≠ [] := by
    intro h
    rw [h] at hlen
    simp at hlen
  obtain ⟨t, ht⟩ : ∃ t, obs_tokens.getLast? = some t := by
    cases hgl : obs_tokens.getLast? with
    | none => exact absurd (List.getLast?_eq_none_iff.mp hgl) hne
    | some t => exact ⟨t, rfl⟩
  have hsqrt : Nat.sqrt (m * m + 1) = m := Nat.sqrt_add_eq m (by omega)
  have hq : obs_tokens.dropLast.length = m * m := by
    rw [List.length_dropLast, hlen]
    omega
  refine ⟨t, ht, ?_⟩
  simp only [decode_obs_tokens, ht, hsqrt, hq]
  rw [if_pos ⟨by omega, dvd_mul_left m m⟩]
  rw [Nat.mul_div_cancel m (by omega : 0 < m)]

/-- Witness for `decode_obs_tokens_spec` at the intended 17-token block. -/
theorem decode_obs_tokens_spec_witness :
    1 ≤ 4 ∧ ((List.range 17).map (fun i => (i : ℤ))).length = 4 * 4 + 1 ∧
    (∃ t, ((List.range 17).map (fun i => (i : ℤ))).getLast? = some t ∧
      decode_obs_tokens ((List.range 17).map (fun i => (i : ℤ))) (4 * 4 + 1) =
        some ⟨4, 4, ((List.range 17).map (fun i => (i : ℤ))).dropLast, t⟩) :=
  ⟨by norm_num, by decide,
    decode_obs_tokens_spec ((List.range 17).map (fun i => (i : ℤ))) 4 (by norm_num) (by decide)⟩

/-! ## Index arithmetic for the flattened label and logit sequences -/

lemma mul_add_div_lt (K b r : ℕ) (hr : r < K) : (b * K + r) / K = b := by
  rw [Nat.mul_comm b K, Nat.mul_add_div (by omega)]
  rw [Nat.div_eq_of_lt hr]
  omega

lemma mul_add_mod_lt (K b r : ℕ) (hr : r < K) : (b * K + r) % K = r := by
  rw [Nat.mul_comm b K, Nat.mul_add_mod]
  exact Nat.mod_eq_of_lt hr

lemma step_index_lt {L K t k : ℕ} (ht : t < L) (hk : k < K) : t * K + k < L * K := by
  calc t * K + k < t * K + K := by omega
    _ = (t + 1) * K := by ring
    _ ≤ L * K := Nat.mul_le_mul_right K (by omega)

/-- `getD` of the flattening of a list of rows of uniform length `K`. -/
lemma flatten_getD_uniform (K : ℕ) (hK : 0 < K) (ls : List (List ℤ))
    (hlen : ∀ l ∈ ls, l.length = K) :
    ∀ m, m < ls.length * K →
      ls.flatten.getD m 0 = (ls.getD (m / K) []).getD (m % K) 0 := by
  induction ls with
  | nil => intro m hm; simp at hm
  | cons row rest ih =>
    intro m hm
    have hrow : row.length = K := hlen row (by simp)
    rw [List.flatten_cons]
    by_cases h : m < K
    · rw [List.getD_append _ _ _ _ (by omega)]
      rw [Nat.div_eq_of_lt h, Nat.mod_eq_of_lt h]
      simp
    · have hmK : K ≤ m := by omega
      have hm' : m - K < rest.length * K := by
        have hexp : (rest.length + 1) * K = rest.length * K + K := by ring
        rw [List.length_cons, hexp] at hm
        omega
      rw [List.getD_append_right _ _ _ _ (by omega)]
      have hrec := ih (fun l hl => hlen l (by simp [hl])) (m - K) hm'
      rw [hrow, hrec]
      have hdiv : m / K = (m - K) / K + 1 := by
        have h2 := Nat.add_div_right (m - K) hK
        rw [show m - K + K = m by omega] at h2
        rw [h2]
      have hmod : m % K = (m - K) % K := Nat.mod_eq_sub_mod hmK
      rw [hdiv, hmod]
      simp

lemma masked_obs_length (obs_tokens : List (List ℤ)) (mask_padding : List Bool)
    (hmp : mask_padding.length = obs_tokens.length) :
    (masked_obs obs_tokens mask_padding).length = obs_tokens.length := by
  simp [masked_obs, hmp]

lemma masked_obs_rows (K : ℕ) (obs_tokens : List (List ℤ)) (mask_padding : List Bool)
    (hrows : ∀ r ∈ obs_tokens, r.length = K) :
    ∀ r ∈ masked_obs obs_tokens mask_padding, r.length = K := by
  intro r hr
  simp only [masked_obs, List.mem_map] at hr
  obtain ⟨⟨row, b⟩, hmem, hrr⟩ := hr
  have hrow : row ∈ obs_tokens := List.of_mem_zip hmem |>.1
  subst hrr
  by_cases hb : b = true <;> simp [hb, hrows row hrow]

lemma masked_obs_getD (obs_tokens : List (List ℤ)) (mask_padding : List Bool) (t : ℕ)
    (hmp : mask_padding.length = obs_tokens.length) (ht : t < obs_tokens.length) :
    (masked_obs obs_tokens mask_padding).getD t [] =
      if mask_padding.getD t true then obs_tokens.getD t []
      else (obs_tokens.getD t []).map (fun _ => IGNORE) := by
  have hlen : t < (masked_obs obs_tokens mask_padding).length := by
    rw [masked_obs_length _ _ hmp]
    exact ht
  rw [List.getD_eq_getElem _ _ hlen]
  have hzip : t < (obs_tokens.zip mask_padding).length := by
    simp [List.length_zip, hmp]
    omega
  simp only [masked_obs, List.getElem_map, List.getElem_zip]
  rw [List.getD_eq_getElem _ _ ht, List.getD_eq_getElem _ _ (by omega : t < mask_padding.length)]

lemma labels_rewards_getD (rewards : List ℚ) (mask_padding : List Bool) (t : ℕ)
    (hrw : t < rewards.length) (hmp : t < mask_padding.length) :
    (labels_rewards rewards mask_padding).getD t 0 =
      if mask_padding.getD t true then discretize_reward (rewards.getD t 0) else IGNORE := by
  have hzip : t < (rewards.zip mask_padding).length := by
    simp [List.length_zip]
    omega
  have hlen : t < (labels_rewards rewards mask_padding).length := by
    simp [labels_rewards, List.length_zip]
    omega
  rw [List.getD_eq_getElem _ _ hlen]
  simp only [labels_rewards, List.getElem_map, List.getElem_zip]
  rw [List.getD_eq_getElem _ _ hrw, List.getD_eq_getElem _ _ hmp]

lemma labels_ends_getD (ends : List ℤ) (mask_padding : List Bool) (t : ℕ)
    (hends : t < ends.length) (hmp : t < mask_padding.length) :
    (labels_ends ends mask_padding).getD t 0 =
      if mask_padding.getD t true then ends.getD t 0 else IGNORE := by
  have hlen : t < (labels_ends ends mask_padding).length := by
    simp [labels_ends, List.length_zip]
    omega
  rw [List.getD_eq_getElem _ _ hlen]
  simp only [labels_ends, List.getElem_map, List.getElem_zip]
  rw [List.getD_eq_getElem _ _ hends, List.getD_eq_getElem _ _ hmp]

/-- The flattened, shifted observation labels: the `j`-th label is the
(masked) observation token at flat position `j + 1`. -/
lemma labels_observations_getD (obs_tokens : List (List ℤ)) (mask_padding : List Bool)
    (K : ℕ) (hK : 0 < K) (hrows : ∀ r ∈ obs_tokens, r.length = K)
    (hmp : mask_padding.length = obs_tokens.length) (j : ℕ)
    (hj : j + 1 < obs_tokens.length * K) :
    (labels_observations obs_tokens mask_padding).getD j 0 =
      if mask_padding.getD ((j + 1) / K) true
      then (obs_tokens.getD ((j + 1) / K) []).getD ((j + 1) % K) 0
      else IGNORE := by
  have hflatlen : (masked_obs obs_tokens mask_padding).flatten.length =
      obs_tokens.length * K := by
    rw [List.length_flatten]
    have : List.map List.length (masked_obs obs_tokens mask_padding) =
        List.map (fun _ => K) (masked_obs obs_tokens mask_padding) :=
      List.map_congr_left (fun r hr => masked_obs_rows K _ _ hrows r hr)
    rw [this, List.map_const', List.sum_replicate, smul_eq_mul,
      masked_obs_length _ _ hmp]
  have hdroplen : j < ((masked_obs obs_tokens mask_padding).flatten.drop 1).length := by
    rw [List.length_drop, hflatlen]
    omega
  unfold labels_observations
  rw [List.getD_eq_getElem _ _ hdroplen, List.getElem_drop]
  have hj1 : 1 + j < (masked_obs obs_tokens mask_padding).flatten.length := by
    rw [hflatlen]; omega
  rw [← List.getD_eq_getElem _ 0 hj1]
  rw [show 1 + j = j + 1 by omega]
  rw [flatten_getD_uniform K hK _ (masked_obs_rows K _ _ hrows) (j + 1)
    (by rw [masked_obs_length _ _ hmp]; exact hj)]
  have hdivlt : (j + 1) / K < obs_tokens.length := by
    first
    | exact Nat.div_lt_of_lt_mul hj
    | exact Nat.div_lt_of_lt_mul (by rw [Nat.mul_comm]; exact hj)
  rw [masked_obs_getD _ _ _ hmp hdivlt]
  by_cases hb : mask_padding.getD ((j + 1) / K) true
  · rw [if_pos hb, if_pos hb]
  · rw [if_neg hb, if_neg hb]
    have hrowmem : obs_tokens.getD ((j + 1) / K) [] ∈ obs_tokens := by
      rw [List.getD_eq_getElem _ _ hdivlt]
      exact List.getElem_mem _
    have hrowlen : (obs_tokens.getD ((j + 1) / K) []).length = K := hrows _ hrowmem
    have hmodlt : (j + 1) % K <
        ((obs_tokens.getD ((j + 1) / K) []).map (fun _ => IGNORE)).length := by
      rw [List.length_map, hrowlen]
      exact Nat.mod_lt _ hK
    rw [List.getD_eq_getElem _ _ hmodlt, List.getElem_map]

lemma getD_default_eq (l : List ℤ) (i : ℕ) (hi : i < l.length) (d1 d2 : ℤ) :
    l.getD i d1 = l.getD i d2 := by
  rw [List.getD_eq_getElem _ _ hi, List.getD_eq_getElem _ _ hi]

lemma labels_observations_length (obs_tokens : List (List ℤ)) (mask_padding : List Bool)
    (K : ℕ) (hrows : ∀ r ∈ obs_tokens, r.length = K)
    (hmp : mask_padding.length = obs_tokens.length) :
    (labels_observations obs_tokens mask_padding).length = obs_tokens.length * K - 1 := by
  unfold labels_observations
  rw [List.length_drop]
  congr 1
  rw [List.length_flatten]
  have hmap : List.map List.length (masked_obs obs_tokens mask_padding) =
      List.map (fun _ => K) (masked_obs obs_tokens mask_padding) :=
    List.map_congr_left (fun r hr => masked_obs_rows K _ _ hrows r hr)
  rw [hmap, List.map_const', List.sum_replicate, smul_eq_mul,
    masked_obs_length _ _ hmp]

/-! ## C8: padded steps get the ignore label everywhere -/

/-- C8: for every training batch element and every step whose padding mask
marks it as padded, the observation-token, reward and termination labels
produced by `compute_labels_world_model` for that step all equal the ignore
label `-100`, and consequently those positions contribute a zero term to
each of the three classification losses. -/
theorem padding_ignore_labels (obs_tokens : List (List ℤ)) (rewards : List ℚ)
    (ends : List ℤ) (mask_padding : List Bool) (K t : ℕ) (hK : 0 < K)
    (hrows : ∀ r ∈ obs_tokens, r.length = K)
    (hmp : mask_padding.length = obs_tokens.length)
    (hrw : rewards.length = obs_tokens.length)
    (hends : ends.length = obs_tokens.length)
    (ht : t < obs_tokens.length)
    (hpad : mask_padding.getD t true = false) :
    (labels_rewards rewards mask_padding).getD t 0 = IGNORE ∧
    (labels_ends ends mask_padding).getD t 0 = IGNORE ∧
    (∀ k, k < K → 1 ≤ t * K + k →
      (labels_observations obs_tokens mask_padding).getD (t * K + k - 1) 0 = IGNORE) ∧
    (∀ f, ce_term f (labels_rewards rewards mask_padding) t = 0) ∧
    (∀ f, ce_term f (labels_ends ends mask_padding) t = 0) ∧
    (∀ f k, k < K → 1 ≤ t * K + k →
      ce_term f (labels_observations obs_tokens mask_padding) (t * K + k - 1) = 0) := by
  have hlr : t < (labels_rewards rewards mask_padding).length := by
    simp only [labels_rewards, List.length_map, List.length_zip]
    omega
  have hle2 : t < (labels_ends ends mask_padding).length := by
    simp only [labels_ends, List.length_map, List.length_zip]
    omega
  have hlo : ∀ k, k < K → 1 ≤ t * K + k →
      t * K + k - 1 < (labels_observations obs_tokens mask_padding).length := by
    intro k hk h1k
    rw [labels_observations_length obs_tokens mask_padding K hrows hmp]
    have := step_index_lt ht hk
    omega
  have h1 : (labels_rewards rewards mask_padding).getD t 0 = IGNORE := by
    rw [labels_rewards_getD _ _ t (by omega) (by omega), hpad]
    simp
  have h2 : (labels_ends ends mask_padding).getD t 0 = IGNORE := by
    rw [labels_ends_getD _ _ t (by omega) (by omega), hpad]
    simp
  have h3 : ∀ k, k < K → 1 ≤ t * K + k →
      (labels_observations obs_tokens mask_padding).getD (t * K + k - 1) 0 = IGNORE := by
    intro k hk h1k
    have hidx : t * K + k - 1 + 1 = t * K + k := by omega
    rw [labels_observations_getD obs_tokens mask_padding K hK hrows hmp _
      (by rw [hidx]; exact step_index_lt ht hk)]
    rw [hidx, mul_add_div_lt K t k hk, hpad]
    simp
  refine ⟨h1, h2, h3, ?_, ?_, ?_⟩
  · intro f
    unfold ce_term
    rw [getD_default_eq _ _ hlr _ 0, h1, if_pos rfl]
  · intro f
    unfold ce_term
    rw [getD_default_eq _ _ hle2 _ 0, h2, if_pos rfl]
  · intro f k hk h1k
    unfold ce_term
    rw [getD_default_eq _ _ (hlo k hk h1k) _ 0, h3 k hk h1k, if_pos rfl]

/-- Witness for `padding_ignore_labels`: two steps of two tokens each, the
second step padded out. -/
theorem padding_ignore_labels_witness :
    (0 < 2 ∧ [true, false].length = [[(1 : ℤ), 2], [3, 4]].length ∧
      [(1 : ℚ), 0].length = [[(1 : ℤ), 2], [3, 4]].length ∧
      [(0 : ℤ), 1].length = [[(1 : ℤ), 2], [3, 4]].length ∧
      1 < [[(1 : ℤ), 2], [3, 4]].length ∧
      [true, false].getD 1 true = false) ∧
    ((labels_rewards [(1 : ℚ), 0] [true, false]).getD 1 0 = IGNORE ∧
    (labels_ends [(0 : ℤ), 1] [true, false]).getD 1 0 = IGNORE ∧
    (∀ k, k < 2 → 1 ≤ 1 * 2 + k →
      (labels_observations [[(1 : ℤ), 2], [3, 4]] [true, false]).getD (1 * 2 + k - 1) 0 =
        IGNORE) ∧
    (∀ f, ce_term f (labels_rewards [(1 : ℚ), 0] [true, false]) 1 = 0) ∧
    (∀ f, ce_term f (labels_ends [(0 : ℤ), 1] [true, false]) 1 = 0) ∧
    (∀ f k, k < 2 → 1 ≤ 1 * 2 + k →
      ce_term f (labels_observations [[(1 : ℤ), 2], [3, 4]] [true, false]) (1 * 2 + k - 1) =
        0)) :=
  ⟨⟨by decide, by decide, by decide, by decide, by decide, by decide⟩,
    padding_ignore_labels [[(1 : ℤ), 2], [3, 4]] [(1 : ℚ), 0] [(0 : ℤ), 1] [true, false] 2 1
      (by decide) (by decide) (by decide) (by decide) (by decide) (by decide) (by decide)⟩

/-! ## Characterizing the masked head positions -/

lemma head_positions_succ (mask : ℕ → ℕ → ℤ) (n L : ℕ) :
    head_positions mask n (L + 1) =
      head_positions mask n L ++ (head_block_offsets mask n).map (fun r => L * n + r) := by
  unfold head_positions
  rw [List.range_succ, List.flatMap_append]
  simp

lemma head_positions_length (mask : ℕ → ℕ → ℤ) (n L : ℕ) :
    (head_positions mask n L).length = L * (head_block_offsets mask n).length := by
  induction L with
  | zero => simp [head_positions]
  | succ L ih =>
    rw [head_positions_succ, List.length_append, ih, List.length_map]
    ring

lemma head_positions_getD (mask : ℕ → ℕ → ℤ) (n : ℕ) :
    ∀ L j, j < L * (head_block_offsets mask n).length →
      (head_positions mask n L).getD j 0 =
        (j / (head_block_offsets mask n).length) * n +
          (head_block_offsets mask n).getD (j % (head_block_offsets mask n).length) 0 := by
  intro L
  induction L with
  | zero => intro j hj; simp at hj
  | succ L ih =>
    intro j hj
    have hC0 : 0 < (head_block_offsets mask n).length := by
      rcases Nat.eq_zero_or_pos (head_block_offsets mask n).length with h0 | h0
      · rw [h0, Nat.mul_zero] at hj; omega
      · exact h0
    rw [head_positions_succ]
    by_cases h : j < L * (head_block_offsets mask n).length
    · rw [List.getD_append _ _ _ _ (by rw [head_positions_length]; exact h)]
      exact ih j h
    · have hge : L * (head_block_offsets mask n).length ≤ j := by omega
      have hr : j - L * (head_block_offsets mask n).length <
          (head_block_offsets mask n).length := by
        have hexp : (L + 1) * (head_block_offsets mask n).length =
            L * (head_block_offsets mask n).length + (head_block_offsets mask n).length := by
          ring
        rw [hexp] at hj
        omega
      rw [List.getD_append_right _ _ _ _ (by rw [head_positions_length]; exact hge)]
      rw [head_positions_length]
      have hmaplen : j - L * (head_block_offsets mask n).length <
          ((head_block_offsets mask n).map (fun r => L * n + r)).length := by
        rw [List.length_map]; exact hr
      rw [List.getD_eq_getElem _ _ hmaplen, List.getElem_map]
      have hsplit : j = L * (head_block_offsets mask n).length +
          (j - L * (head_block_offsets mask n).length) := by omega
      have hdiv : j / (head_block_offsets mask n).length = L := by
        conv_lhs => rw [hsplit]
        rw [mul_add_div_lt _ L _ hr]
      have hmod : j % (head_block_offsets mask n).length =
          j - L * (head_block_offsets mask n).length := by
        conv_lhs => rw [hsplit]
        rw [mul_add_mod_lt _ L _ hr]
      rw [hdiv, hmod, ← List.getD_eq_getElem _ 0 hr]

lemma filter_range_eq_single (n a : ℕ) (ha : a < n) (p : ℕ → Bool)
    (hp : ∀ r, r < n → (p r = true ↔ r = a)) :
    (List.range n).filter p = [a] := by
  induction n with
  | zero => omega
  | succ n ih =>
    rw [List.range_succ, List.filter_append]
    by_cases han : a = n
    · have hnil : (List.range n).filter p = [] := by
        rw [List.filter_eq_nil_iff]
        intro x hx
        rw [List.mem_range] at hx
        rw [Bool.not_eq_true]
        rw [← Bool.not_eq_true] at *
        intro hcon
        rw [hp x (by omega)] at hcon
        omega
      rw [hnil]
      have hpn : p n = true := (hp n (by omega)).mpr han.symm
      simp [hpn, han]
    · have ha' : a < n := by omega
      rw [ih ha' (fun r hr => hp r (by omega))]
      have hpn : ¬ p n = true := by
        intro hcon
        rw [hp n (by omega)] at hcon
        omega
      simp [hpn]

/-- The action head keeps exactly the last block offset. -/
lemma act_offsets_eq (n : ℕ) (hn : 1 ≤ n) :
    head_block_offsets act_tokens_pattern n = [n - 1] := by
  unfold head_block_offsets
  apply filter_range_eq_single n (n - 1) (by omega)
  intro r hr
  rw [decide_eq_true_iff]
  unfold act_tokens_pattern
  by_cases h : r = n - 1 <;> simp [h]

/-- The observation head keeps the first `K - 1` offsets and the action
offset `K + 1` of a block of size `K + 2`. -/
lemma obs_offsets_eq (K : ℕ) (hK : 1 ≤ K) :
    head_block_offsets all_but_last_obs_tokens_pattern (K + 2) =
      List.range (K - 1) ++ [K + 1] := by
  unfold head_block_offsets
  have hsplit : List.range (K + 2) = ((List.range (K - 1) ++ [K - 1]) ++ [K]) ++ [K + 1] := by
    rw [show K + 2 = K - 1 + 1 + 1 + 1 by omega]
    rw [List.range_succ, List.range_succ, List.range_succ]
    rw [show K - 1 + 1 = K by omega, show K - 1 + 1 + 1 = K + 1 by omega]
  rw [hsplit, List.filter_append, List.filter_append, List.filter_append]
  have e1 : all_but_last_obs_tokens_pattern (K + 2) (K - 1) = 0 := by
    unfold all_but_last_obs_tokens_pattern
    rw [if_neg (by omega), if_pos (by omega)]
  have e2 : all_but_last_obs_tokens_pattern (K + 2) K = 0 := by
    unfold all_but_last_obs_tokens_pattern
    rw [if_pos (by omega)]
  have e3 : all_but_last_obs_tokens_pattern (K + 2) (K + 1) = 1 := by
    unfold all_but_last_obs_tokens_pattern
    rw [if_neg (by omega), if_neg (by omega)]
  have hkeep : (List.range (K - 1)).filter
      (fun r => decide (all_but_last_obs_tokens_pattern (K + 2) r = 1)) =
      List.range (K - 1) := by
    rw [List.filter_eq_self]
    intro a ha
    rw [List.mem_range] at ha
    rw [decide_eq_true_iff]
    unfold all_but_last_obs_tokens_pattern
    rw [if_neg (by omega), if_neg (by omega)]
  rw [hkeep]
  simp [e1, e2, e3]

lemma obs_offsets_getD (K r : ℕ) (hr : r < K) :
    (List.range (K - 1) ++ [K + 1]).getD r 0 = if r < K - 1 then r else K + 1 := by
  by_cases h : r < K - 1
  · rw [if_pos h, List.getD_append _ _ _ _ (by simp; omega)]
    rw [List.getD_eq_getElem _ _ (by simp; omega), List.getElem_range]
  · rw [if_neg h, List.getD_append_right _ _ _ _ (by simp; omega)]
    have hz : r - (List.range (K - 1)).length = 0 := by simp; omega
    rw [hz]
    rfl

/-! ## The loss pairing of `WorldModel.compute_loss` -/

/-- The observation-loss pairing of `compute_loss`:
`logits_observations[:, :-1]` (the head's compacted output positions with
the final one dropped) zipped elementwise with `labels_observations`. -/
def obs_loss_pairs (K L : ℕ) (obs_tokens : List (List ℤ)) (mask_padding : List Bool) :
    List (ℕ × ℤ) :=
  ((head_positions all_but_last_obs_tokens_pattern (K + 2) L).dropLast).zip
    (labels_observations obs_tokens mask_padding)

/-- The reward-loss pairing of `compute_loss`: the reward head's positions
zipped with `labels_rewards`, unshifted. -/
def reward_loss_pairs (K L : ℕ) (rewards : List ℚ) (mask_padding : List Bool) :
    List (ℕ × ℤ) :=
  (head_positions act_tokens_pattern (K + 2) L).zip (labels_rewards rewards mask_padding)

/-- The termination-loss pairing of `compute_loss`: the end head's positions
zipped with `labels_ends`, unshifted. -/
def ends_loss_pairs (K L : ℕ) (ends : List ℤ) (mask_padding : List Bool) :
    List (ℕ × ℤ) :=
  (head_positions act_tokens_pattern (K + 2) L).zip (labels_ends ends mask_padding)

/-- Modelled from the spec: the value of one classification loss given the
pointwise loss `f` produced by the network logits, pairs labelled with the
ignore label contributing zero. -/
def ce_pairs (f : ℕ × ℤ → ℚ) (ps : List (ℕ × ℤ)) : ℚ :=
  (ps.map (fun p => if p.2 = IGNORE then 0 else f p)).sum

/-- `WorldModel.compute_loss`: the three independent classification losses
(observation shifted, reward and termination unshifted) assembled into the
loss container. -/
def compute_loss (K L : ℕ) (obs_tokens : List (List ℤ)) (rewards : List ℚ)
    (ends : List ℤ) (mask_padding : List Bool) (f1 f2 f3 : ℕ × ℤ → ℚ) :
    LossWithIntermediateLosses :=
  ⟨ce_pairs f1 (obs_loss_pairs K L obs_tokens mask_padding),
   ce_pairs f2 (reward_loss_pairs K L rewards mask_padding),
   ce_pairs f3 (ends_loss_pairs K L ends mask_padding)⟩

/-- The `(b*K + r)`-th observation loss pair: the logit at block `b`, head
slot `r` (block offset `r` for `r < K - 1`, the action slot `K + 1` for
`r = K - 1`) paired with the masked observation token at flat position
`b*K + r + 1`. -/
lemma obs_loss_pairs_getD (K L : ℕ) (hK : 1 ≤ K) (obs_tokens : List (List ℤ))
    (mask_padding : List Bool) (hL : obs_tokens.length = L)
    (hrows : ∀ row ∈ obs_tokens, row.length = K)
    (hmp : mask_padding.length = L)
    (b r : ℕ) (hb : b < L) (hr : r < K) (hnext : b * K + r + 1 < L * K) :
    (obs_loss_pairs K L obs_tokens mask_padding).getD (b * K + r) (0, 0) =
      (b * (K + 2) + (if r < K - 1 then r else K + 1),
       if r < K - 1
       then (if mask_padding.getD b true then (obs_tokens.getD b []).getD (r + 1) 0
             else IGNORE)
       else (if mask_padding.getD (b + 1) true then (obs_tokens.getD (b + 1) []).getD 0 0
             else IGNORE)) := by
  have hmpobs : mask_padding.length = obs_tokens.length := by rw [hmp, hL]
  have hC : (head_block_offsets all_but_last_obs_tokens_pattern (K + 2)).length = K := by
    rw [obs_offsets_eq K hK, List.length_append, List.length_range]
    simp
    omega
  have hPlen : (head_positions all_but_last_obs_tokens_pattern (K + 2) L).length = L * K := by
    rw [head_positions_length, hC]
  have hlablen : (labels_observations obs_tokens mask_padding).length = L * K - 1 := by
    rw [labels_observations_length _ _ K hrows hmpobs, hL]
  have hjlt : b * K + r < L * K - 1 := by omega
  have hzip : b * K + r < (obs_loss_pairs K L obs_tokens mask_padding).length := by
    unfold obs_loss_pairs
    rw [List.length_zip, List.length_dropLast, hPlen, hlablen]
    simpa
  unfold obs_loss_pairs at hzip ⊢
  rw [List.getD_eq_getElem _ _ hzip, List.getElem_zip, Prod.mk.injEq]
  constructor
  · rw [List.getElem_dropLast]
    rw [← List.getD_eq_getElem _ 0 (by rw [hPlen]; omega)]
    rw [head_positions_getD _ _ L _ (by rw [hC]; omega)]
    rw [hC, mul_add_div_lt K b r hr, mul_add_mod_lt K b r hr]
    rw [obs_offsets_eq K hK, obs_offsets_getD K r hr]
  · rw [← List.getD_eq_getElem _ 0 (by rw [hlablen]; omega)]
    rw [labels_observations_getD obs_tokens mask_padding K (by omega) hrows hmpobs _
      (by rw [hL]; omega)]
    by_cases hrK : r < K - 1
    · have hkey : b * K + r + 1 = b * K + (r + 1) := by omega
      rw [hkey, mul_add_div_lt K b (r + 1) (by omega), mul_add_mod_lt K b (r + 1) (by omega)]
      rw [if_pos hrK]
    · have h1 : K - 1 + 1 = K := by omega
      have hkey : b * K + r + 1 = (b + 1) * K + 0 := by
        have hreq : r = K - 1 := by omega
        calc b * K + r + 1 = b * K + (K - 1 + 1) := by rw [hreq, Nat.add_assoc]
          _ = b * K + K := by rw [h1]
          _ = (b + 1) * K + 0 := by ring
      rw [hkey, mul_add_div_lt K (b + 1) 0 (by omega), mul_add_mod_lt K (b + 1) 0 (by omega)]
      rw [if_neg hrK]

/-! ## C5: the observation loss is shifted by one position -/

/-- C5: in the training loss, the retained observation logits (all but the
final one) are paired elementwise with the observation-token labels with the
first label dropped, so the logit produced at block `b`, slot index `r` of
the observation head is paired with the (masked) observation token at flat
position `b*K + r + 1` — one position later — and sits strictly before that
token's position in the interleaved sequence; the reward and termination
losses pair the `t`-th action-slot logit with the `t`-th label, unshifted;
and the total loss is the sum of the three classification losses. -/
theorem observation_loss_shift (K L : ℕ) (hK : 1 ≤ K)
    (obs_tokens : List (List ℤ)) (rewards : List ℚ) (ends : List ℤ)
    (mask_padding : List Bool) (f1 f2 f3 : ℕ × ℤ → ℚ)
    (hL : obs_tokens.length = L)
    (hrows : ∀ row ∈ obs_tokens, row.length = K)
    (hmp : mask_padding.length = L) (hrw : rewards.length = L)
    (hends : ends.length = L) :
    (head_positions all_but_last_obs_tokens_pattern (K + 2) L).length = L * K ∧
    (obs_loss_pairs K L obs_tokens mask_padding).length = L * K - 1 ∧
    (labels_observations obs_tokens mask_padding).length = L * K - 1 ∧
    (∀ b r, b < L → r < K → b * K + r + 1 < L * K →
      (obs_loss_pairs K L obs_tokens mask_padding).getD (b * K + r) (0, 0) =
        (b * (K + 2) + (if r < K - 1 then r else K + 1),
         if r < K - 1
         then (if mask_padding.getD b true then (obs_tokens.getD b []).getD (r + 1) 0
               else IGNORE)
         else (if mask_padding.getD (b + 1) true then (obs_tokens.getD (b + 1) []).getD 0 0
               else IGNORE))) ∧
    (∀ b r, b < L → r < K →
      b * (K + 2) + (if r < K - 1 then r else K + 1) <
        (if r < K - 1 then b * (K + 2) + (r + 1) else (b + 1) * (K + 2))) ∧
    (head_positions act_tokens_pattern (K + 2) L).length = L ∧
    (∀ t, t < L →
      (reward_loss_pairs K L rewards mask_padding).getD t (0, 0) =
        (t * (K + 2) + (K + 1), (labels_rewards rewards mask_padding).getD t 0) ∧
      (ends_loss_pairs K L ends mask_padding).getD t (0, 0) =
        (t * (K + 2) + (K + 1), (labels_ends ends mask_padding).getD t 0)) ∧
    (compute_loss K L obs_tokens rewards ends mask_padding f1 f2 f3).total =
      ce_pairs f1 (obs_loss_pairs K L obs_tokens mask_padding) +
      ce_pairs f2 (reward_loss_pairs K L rewards mask_padding) +
      ce_pairs f3 (ends_loss_pairs K L ends mask_padding) := by
  have hmpobs : mask_padding.length = obs_tokens.length := by rw [hmp, hL]
  have hC : (head_block_offsets all_but_last_obs_tokens_pattern (K + 2)).length = K := by
    rw [obs_offsets_eq K hK, List.length_append, List.length_range]
    simp
    omega
  have hPlen : (head_positions all_but_last_obs_tokens_pattern (K + 2) L).length = L * K := by
    rw [head_positions_length, hC]
  have hlablen : (labels_observations obs_tokens mask_padding).length = L * K - 1 := by
    rw [labels_observations_length _ _ K hrows hmpobs, hL]
  have hpairlen : (obs_loss_pairs K L obs_tokens mask_padding).length = L * K - 1 := by
    unfold obs_loss_pairs
    rw [List.length_zip, List.length_dropLast, hPlen, hlablen]
    simp
  have hpair : ∀ b r, b < L → r < K → b * K + r + 1 < L * K →
      (obs_loss_pairs K L obs_tokens mask_padding).getD (b * K + r) (0, 0) =
        (b * (K + 2) + (if r < K - 1 then r else K + 1),
         if r < K - 1
         then (if mask_padding.getD b true then (obs_tokens.getD b []).getD (r + 1) 0
               else IGNORE)
         else (if mask_padding.getD (b + 1) true then (obs_tokens.getD (b + 1) []).getD 0 0
               else IGNORE)) :=
    fun b r hb hr hnext =>
      obs_loss_pairs_getD K L hK obs_tokens mask_padding hL hrows hmp b r hb hr hnext
  have hcausal : ∀ b r, b < L → r < K →
      b * (K + 2) + (if r < K - 1 then r else K + 1) <
        (if r < K - 1 then b * (K + 2) + (r + 1) else (b + 1) * (K + 2)) := by
    intro b r hb hr
    by_cases h : r < K - 1
    · rw [if_pos h, if_pos h]
      omega
    · rw [if_neg h, if_neg h]
      have hexp : (b + 1) * (K + 2) = b * (K + 2) + (K + 2) := by ring
      rw [hexp]
      omega
  have hAoffs : head_block_offsets act_tokens_pattern (K + 2) = [K + 1] := by
    rw [act_offsets_eq (K + 2) (by omega)]
    norm_num
  have hAlen : (head_positions act_tokens_pattern (K + 2) L).length = L := by
    rw [head_positions_length, hAoffs]
    simp
  have hrewlen : (labels_rewards rewards mask_padding).length = L := by
    simp only [labels_rewards, List.length_map, List.length_zip, hrw, hmp]
    simp
  have hendlen2 : (labels_ends ends mask_padding).length = L := by
    simp only [labels_ends, List.length_map, List.length_zip, hends, hmp]
    simp
  have hApos : ∀ t, t < L →
      (head_positions act_tokens_pattern (K + 2) L).getD t 0 = t * (K + 2) + (K + 1) := by
    intro t ht
    rw [head_positions_getD _ _ L t (by rw [hAoffs]; simpa)]
    rw [hAoffs]
    simp [Nat.mod_one]
  have hpairR : ∀ t, t < L →
      (reward_loss_pairs K L rewards mask_padding).getD t (0, 0) =
        (t * (K + 2) + (K + 1), (labels_rewards rewards mask_padding).getD t 0) ∧
      (ends_loss_pairs K L ends mask_padding).getD t (0, 0) =
        (t * (K + 2) + (K + 1), (labels_ends ends mask_padding).getD t 0) := by
    intro t ht
    constructor
    · have hz : t < (reward_loss_pairs K L rewards mask_padding).length := by
        unfold reward_loss_pairs
        rw [List.length_zip, hAlen, hrewlen]
        simpa
      unfold reward_loss_pairs at hz ⊢
      rw [List.getD_eq_getElem _ _ hz, List.getElem_zip, Prod.mk.injEq]
      constructor
      · rw [← List.getD_eq_getElem _ 0 (by rw [hAlen]; omega)]
        exact hApos t ht
      · rw [← List.getD_eq_getElem _ 0 (by rw [hrewlen]; omega)]
    · have hz : t < (ends_loss_pairs K L ends mask_padding).length := by
        unfold ends_loss_pairs
        rw [List.length_zip, hAlen, hendlen2]
        simpa
      unfold ends_loss_pairs at hz ⊢
      rw [List.getD_eq_getElem _ _ hz, List.getElem_zip, Prod.mk.injEq]
      constructor
      · rw [← List.getD_eq_getElem _ 0 (by rw [hAlen]; omega)]
        exact hApos t ht
      · rw [← List.getD_eq_getElem _ 0 (by rw [hendlen2]; omega)]
  exact ⟨hPlen, hpairlen, hlablen, hpair, hcausal, hAlen, hpairR, rfl⟩

/-- Witness for `observation_loss_shift` with one observation token per
block and two blocks. -/
theorem observation_loss_shift_witness :
    (1 ≤ 1 ∧ [[(5 : ℤ)], [6]].length = 2 ∧ (∀ row ∈ [[(5 : ℤ)], [6]], row.length = 1) ∧
      [true, true].length = 2 ∧ [(0 : ℚ), 1/2].length = 2 ∧ [(0 : ℤ), 1].length = 2) ∧
    ((head_positions all_but_last_obs_tokens_pattern (1 + 2) 2).length = 2 * 1 ∧
    (obs_loss_pairs 1 2 [[(5 : ℤ)], [6]] [true, true]).length = 2 * 1 - 1 ∧
    (labels_observations [[(5 : ℤ)], [6]] [true, true]).length = 2 * 1 - 1 ∧
    (∀ b r, b < 2 → r < 1 → b * 1 + r + 1 < 2 * 1 →
      (obs_loss_pairs 1 2 [[(5 : ℤ)], [6]] [true, true]).getD (b * 1 + r) (0, 0) =
        (b * (1 + 2) + (if r < 1 - 1 then r else 1 + 1),
         if r < 1 - 1
         then (if [true, true].getD b true then ([[(5 : ℤ)], [6]].getD b []).getD (r + 1) 0
               else IGNORE)
         else (if [true, true].getD (b + 1) true
               then ([[(5 : ℤ)], [6]].getD (b + 1) []).getD 0 0
               else IGNORE))) ∧
    (∀ b r, b < 2 → r < 1 →
      b * (1 + 2) + (if r < 1 - 1 then r else 1 + 1) <
        (if r < 1 - 1 then b * (1 + 2) + (r + 1) else (b + 1) * (1 + 2))) ∧
    (head_positions act_tokens_pattern (1 + 2) 2).length = 2 ∧
    (∀ t, t < 2 →
      (reward_loss_pairs 1 2 [(0 : ℚ), 1/2] [true, true]).getD t (0, 0) =
        (t * (1 + 2) + (1 + 1), (labels_rewards [(0 : ℚ), 1/2] [true, true]).getD t 0) ∧
      (ends_loss_pairs 1 2 [(0 : ℤ), 1] [true, true]).getD t (0, 0) =
        (t * (1 + 2) + (1 + 1), (labels_ends [(0 : ℤ), 1] [true, true]).getD t 0)) ∧
    (compute_loss 1 2 [[(5 : ℤ)], [6]] [(0 : ℚ), 1/2] [(0 : ℤ), 1] [true, true]
        (fun _ => 1) (fun _ => 1) (fun _ => 1)).total =
      ce_pairs (fun _ => 1) (obs_loss_pairs 1 2 [[(5 : ℤ)], [6]] [true, true]) +
      ce_pairs (fun _ => 1) (reward_loss_pairs 1 2 [(0 : ℚ), 1/2] [true, true]) +
      ce_pairs (fun _ => 1) (ends_loss_pairs 1 2 [(0 : ℤ), 1] [true, true])) :=
  ⟨⟨by norm_num, by decide, by decide, by decide, by decide, by decide⟩,
    observation_loss_shift 1 2 (by norm_num) [[(5 : ℤ)], [6]] [(0 : ℚ), 1/2] [(0 : ℤ), 1]
      [true, true] (fun _ => 1) (fun _ => 1) (fun _ => 1)
      (by decide) (by decide) (by decide) (by decide) (by decide)⟩

/-! ## C10: observation-head mask placement -/

/-- C10: for a constructed `WorldModel` with block size `K + 2`, the
observation head's block mask is 1 at every position except the last
observation slot `K - 1` (third-to-last) and the task slot `K`
(second-to-last), and in particular is 1 at the action slot `K + 1`; the
head therefore produces logits at the action slot — and the training
pairing matches the logit at block `b`'s action slot with the first
observation token of block `b + 1` — while producing none at the task slot
or the final observation slot. -/
theorem obs_head_mask_placement (K L : ℕ) (hK : 1 ≤ K)
    (obs_tokens : List (List ℤ)) (mask_padding : List Bool)
    (hL : obs_tokens.length = L)
    (hrows : ∀ row ∈ obs_tokens, row.length = K)
    (hmp : mask_padding.length = L) :
    (∀ i, i < K + 2 →
      (all_but_last_obs_tokens_pattern (K + 2) i = 1 ↔ (i ≠ K ∧ i ≠ K - 1))) ∧
    all_but_last_obs_tokens_pattern (K + 2) (K + 1) = 1 ∧
    all_but_last_obs_tokens_pattern (K + 2) K = 0 ∧
    all_but_last_obs_tokens_pattern (K + 2) (K - 1) = 0 ∧
    (K + 1) ∈ head_block_offsets all_but_last_obs_tokens_pattern (K + 2) ∧
    K ∉ head_block_offsets all_but_last_obs_tokens_pattern (K + 2) ∧
    (K - 1) ∉ head_block_offsets all_but_last_obs_tokens_pattern (K + 2) ∧
    (∀ b, b + 1 < L →
      (obs_loss_pairs K L obs_tokens mask_padding).getD (b * K + (K - 1)) (0, 0) =
        (b * (K + 2) + (K + 1),
         if mask_padding.getD (b + 1) true then (obs_tokens.getD (b + 1) []).getD 0 0
         else IGNORE)) := by
  have hK2 : K + 2 - 2 = K := by omega
  have hK3 : K + 2 - 3 = K - 1 := by omega
  have hne : K ≠ K - 1 ∨ K = K - 1 := by omega
  have hmask : ∀ i, i < K + 2 →
      (all_but_last_obs_tokens_pattern (K + 2) i = 1 ↔ (i ≠ K ∧ i ≠ K - 1)) := by
    intro i hi
    unfold all_but_last_obs_tokens_pattern
    rw [hK2, hK3]
    by_cases h1 : i = K
    · rw [if_pos h1]
      simp [h1]
    · rw [if_neg h1]
      by_cases h2 : i = K - 1
      · rw [if_pos h2]
        simp [h2]
      · rw [if_neg h2]
        simp [h1, h2]
  have he1 : all_but_last_obs_tokens_pattern (K + 2) (K + 1) = 1 := by
    unfold all_but_last_obs_tokens_pattern
    rw [if_neg (by omega), if_neg (by omega)]
  have he2 : all_but_last_obs_tokens_pattern (K + 2) K = 0 := by
    unfold all_but_last_obs_tokens_pattern
    rw [if_pos (by omega)]
  have he3 : all_but_last_obs_tokens_pattern (K + 2) (K - 1) = 0 := by
    unfold all_but_last_obs_tokens_pattern
    rw [if_neg (by omega), if_pos (by omega)]
  have hoffs := obs_offsets_eq K hK
  have hmem1 : (K + 1) ∈ head_block_offsets all_but_last_obs_tokens_pattern (K + 2) := by
    rw [hoffs]
    simp
  have hmem2 : K ∉ head_block_offsets all_but_last_obs_tokens_pattern (K + 2) := by
    rw [hoffs]
    simp [List.mem_range]
  have hmem3 : (K - 1) ∉ head_block_offsets all_but_last_obs_tokens_pattern (K + 2) := by
    rw [hoffs]
    simp [List.mem_range]
  refine ⟨hmask, he1, he2, he3, hmem1, hmem2, hmem3, ?_⟩
  intro b hb
  have hKK : K - 1 < K := by omega
  have hnext : b * K + (K - 1) + 1 < L * K := by
    have h1 : K - 1 + 1 = K := by omega
    have hkey : b * K + (K - 1) + 1 = (b + 1) * K := by
      calc b * K + (K - 1) + 1 = b * K + (K - 1 + 1) := by rw [Nat.add_assoc]
        _ = b * K + K := by rw [h1]
        _ = (b + 1) * K := by ring
    rw [hkey]
    exact (Nat.mul_lt_mul_right (by omega : 0 < K)).mpr hb
  have hp := obs_loss_pairs_getD K L hK obs_tokens mask_padding hL hrows hmp
    b (K - 1) (by omega) hKK hnext
  rw [if_neg (by omega), if_neg (by omega)] at hp
  exact hp

/-- Witness for `obs_head_mask_placement` with two observation tokens per
block and two blocks. -/
theorem obs_head_mask_placement_witness :
    (1 ≤ 2 ∧ [[(1 : ℤ), 2], [3, 4]].length = 2 ∧
      (∀ row ∈ [[(1 : ℤ), 2], [3, 4]], row.length = 2) ∧ [true, true].length = 2) ∧
    ((∀ i, i < 2 + 2 →
      (all_but_last_obs_tokens_pattern (2 + 2) i = 1 ↔ (i ≠ 2 ∧ i ≠ 2 - 1))) ∧
    all_but_last_obs_tokens_pattern (2 + 2) (2 + 1) = 1 ∧
    all_but_last_obs_tokens_pattern (2 + 2) 2 = 0 ∧
    all_but_last_obs_tokens_pattern (2 + 2) (2 - 1) = 0 ∧
    (2 + 1) ∈ head_block_offsets all_but_last_obs_tokens_pattern (2 + 2) ∧
    (2 : ℕ) ∉ head_block_offsets all_but_last_obs_tokens_pattern (2 + 2) ∧
    (2 - 1 : ℕ) ∉ head_block_offsets all_but_last_obs_tokens_pattern (2 + 2) ∧
    (∀ b, b + 1 < 2 →
      (obs_loss_pairs 2 2 [[(1 : ℤ), 2], [3, 4]] [true, true]).getD (b * 2 + (2 - 1)) (0, 0) =
        (b * (2 + 2) + (2 + 1),
         if [true, true].getD (b + 1) true
         then ([[(1 : ℤ), 2], [3, 4]].getD (b + 1) []).getD 0 0
         else IGNORE))) :=
  ⟨⟨by norm_num, by decide, by decide, by decide⟩,
    obs_head_mask_placement 2 2 (by norm_num) [[(1 : ℤ), 2], [3, 4]] [true, true]
      (by decide) (by decide) (by decide)⟩

end Iris
